import Mathlib

/-!
Verification development for the `lolmarkov` repository: a Discord archiver
(`dscrape.py`) writing an SQLite store, and a companion Markov-model bot
(`lolmarkov.py`) reading that store.  The definitions below are a shallow
embedding of the store schema, the archiver's pagination/ingestion logic and
the model cache, translated directly from the Python sources.
-/

namespace Lolmarkov

/-! ## Store schema (dscrape.py, DDL at lines 14-46) -/

/-- Column names of the `users` table as created by `USERS_TABLE_DDL`. -/
def usersColumns : List String :=
  ["user_id", "username", "display_name", "discriminator"]

/-- Column names of the `channels` table as created by `CHANNELS_TABLE_DDL`. -/
def channelsColumns : List String :=
  ["channel_id", "channel_name"]

/-- Column names of the `messages` table as created by `MESSAGES_TABLE_DDL`. -/
def messagesColumns : List String :=
  ["message_id", "timestamp", "user_id", "author_username", "channel_id",
   "content", "clean_content"]

/-- Column names of the `mentions` table as created by `MENTIONS_TABLE_DDL`. -/
def mentionsColumns : List String :=
  ["from_user_id", "to_user_id", "message_id"]

/-- Columns of `users` referenced by the model bot's `database_user` query
(`SELECT id, username, discriminator FROM users WHERE username||...||discriminator == ? OR id is ?`). -/
def modelCacheUserColumns : List String :=
  ["id", "username", "discriminator"]

/-- Columns of `messages` referenced by the model bot's queries in
`cache_update`, `create_model` and `quote`
(`max(timestamp) ... WHERE author_id is ?`, `SELECT clean_content ... WHERE author_id is ? ORDER BY timestamp`). -/
def modelCacheMessageColumns : List String :=
  ["timestamp", "author_id", "clean_content"]

/-- Whether every column the model bot reads resolves in the archiver's schema. -/
def modelCacheSchemaResolves : Bool :=
  modelCacheUserColumns.all (fun c => usersColumns.contains c) &&
  modelCacheMessageColumns.all (fun c => messagesColumns.contains c)

/-- A row of the `users` table (column order of the DDL). -/
structure UserRow where
  user_id : Nat
  username : String
  display_name : String
  discriminator : String
  deriving Repr, DecidableEq

/-- A row of the `channels` table. -/
structure ChannelRow where
  channel_id : Nat
  channel_name : String
  deriving Repr, DecidableEq

/-- A row of the `messages` table (column order of the DDL: the author column
is named `user_id` in the archiver's schema). -/
structure MessageRow where
  message_id : Nat
  timestamp : Int
  user_id : Nat
  author_username : String
  channel_id : Nat
  content : String
  clean_content : String
  deriving Repr, DecidableEq

/-- A row of the `mentions` table (no primary key in the DDL). -/
structure MentionRow where
  from_user_id : Nat
  to_user_id : Nat
  message_id : Nat
  deriving Repr, DecidableEq

/-- The archive database: lists model SQLite tables in insertion order. -/
structure DB where
  users : List UserRow
  channels : List ChannelRow
  messages : List MessageRow
  mentions : List MentionRow
  deriving Repr, DecidableEq

/-- Membership of a user id in the `users` table. -/
def hasUserId (t : List UserRow) (i : Nat) : Bool :=
  t.any (fun r => r.user_id == i)

/-- Membership of a message id in the `messages` table. -/
def hasMessageId (t : List MessageRow) (i : Nat) : Bool :=
  t.any (fun r => r.message_id == i)

/-- Membership of a channel id in the `channels` table. -/
def hasChannelId (t : List ChannelRow) (i : Nat) : Bool :=
  t.any (fun r => r.channel_id == i)

/-- `INSERT OR IGNORE INTO users VALUES(?, ?, ?, ?)`: keyed on the primary key
`user_id`, a conflicting insert leaves the table untouched. -/
def insertOrIgnoreUser (t : List UserRow) (u : UserRow) : List UserRow :=
  if hasUserId t u.user_id then t else t ++ [u]

/-- `INSERT OR IGNORE INTO channels VALUES(?, ?)`. -/
def insertOrIgnoreChannel (t : List ChannelRow) (c : ChannelRow) : List ChannelRow :=
  if hasChannelId t c.channel_id then t else t ++ [c]

/-- `INSERT OR IGNORE INTO messages VALUES (?, ?, ?, ?, ?, ?, ?)`. -/
def insertOrIgnoreMessage (t : List MessageRow) (m : MessageRow) : List MessageRow :=
  if hasMessageId t m.message_id then t else t ++ [m]

/-! ## Remote (Discord-side) data, as seen by the generators -/

/-- A remote user/member as exposed by the Discord client. -/
structure RUser where
  id : Nat
  name : String
  display_name : String
  discriminator : String
  deriving Repr, DecidableEq

/-- A remote message as exposed by `channel.history`. -/
structure RMessage where
  id : Nat
  createdAt : Int
  author : RUser
  channel_id : Nat
  content : String
  clean_content : String
  mentions : List RUser
  deriving Repr, DecidableEq

/-- The message tuple yielded by `message_tuple_generator` (dscrape.py lines 146-155). -/
def messageTuple (m : RMessage) : MessageRow :=
  { message_id := m.id
    timestamp := m.createdAt
    user_id := m.author.id
    author_username := m.author.name
    channel_id := m.channel_id
    content := m.content
    clean_content := m.clean_content }

/-- The author tuple yielded by `message_tuple_generator` (dscrape.py lines 156-161). -/
def userTuple (m : RMessage) : UserRow :=
  { user_id := m.author.id
    username := m.author.name
    display_name := m.author.display_name
    discriminator := m.author.discriminator }

/-- The member tuple yielded by `user_tuple_generator` (dscrape.py line 82). -/
def memberTuple (u : RUser) : UserRow :=
  { user_id := u.id
    username := u.name
    display_name := u.display_name
    discriminator := u.discriminator }

/-- The mention tuples built at dscrape.py lines 142-145:
`(int(message.id), int(message.author.id), int(user.id)) for user in message.mentions`,
inserted positionally into `mentions(from_user_id, to_user_id, message_id)`. -/
def mentionTuples (m : RMessage) : List MentionRow :=
  m.mentions.map (fun u =>
    { from_user_id := m.id
      to_user_id := m.author.id
      message_id := u.id })

/-! ## Watermark / pagination protocol (`message_tuple_generator`, lines 96-138) -/

/-- Accumulator step keeping the first row achieving the running maximum. -/
def maxStep (acc : Option MessageRow) (r : MessageRow) : Option MessageRow :=
  match acc with
  | none => some r
  | some m => if r.timestamp > m.timestamp then some r else acc

/-- Accumulator step keeping the first row achieving the running minimum. -/
def minStep (acc : Option MessageRow) (r : MessageRow) : Option MessageRow :=
  match acc with
  | none => some r
  | some m => if r.timestamp < m.timestamp then some r else acc

/-- SQLite `SELECT message_id, max(timestamp) FROM messages WHERE channel_id = ?`:
returns a row of the table achieving the maximal timestamp among rows of the
channel (the first such row in table order), or none when the channel has no rows. -/
def maxTsRow (msgs : List MessageRow) (ch : Nat) : Option MessageRow :=
  (msgs.filter (fun r => r.channel_id == ch)).foldl maxStep none

/-- SQLite `SELECT message_id, min(timestamp) FROM messages WHERE channel_id = ?`. -/
def minTsRow (msgs : List MessageRow) (ch : Nat) : Option MessageRow :=
  (msgs.filter (fun r => r.channel_id == ch)).foldl minStep none

/-- Update-mode cursor (dscrape.py lines 116-125): the message id of the stored
max-timestamp row, guarded by Python truthiness of `row[0]` (a 0 id counts as
absent). -/
def updateCursor (msgs : List MessageRow) (ch : Nat) : Option Nat :=
  match maxTsRow msgs ch with
  | none => none
  | some m => if m.message_id ≠ 0 then some m.message_id else none

/-- Backfill-mode cursor (dscrape.py lines 126-135). -/
def backfillCursor (msgs : List MessageRow) (ch : Nat) : Option Nat :=
  match minTsRow msgs ch with
  | none => none
  | some m => if m.message_id ≠ 0 then some m.message_id else none

/-- `channel.history(before=before, after=after, limit=None)`.  `remote` is the
channel's full history, newest first (Discord's serving order).  `after=x`
keeps messages with id strictly greater than `x` and is delivered oldest
first; `before=x` keeps ids strictly smaller, newest first. -/
def history (remote : List RMessage) (before after : Option Nat) : List RMessage :=
  let filtered := remote.filter (fun m =>
    (match before with
     | none => true
     | some b => decide (m.id < b)) &&
    (match after with
     | none => true
     | some a => decide (a < m.id)))
  if after.isSome then filtered.reverse else filtered

/-- One channel's scan in `message_tuple_generator`: the cursor is computed
from the stored rows once, before the single history request. -/
def channelScan (update : Bool) (msgs : List MessageRow) (remote : List RMessage)
    (ch : Nat) : List RMessage :=
  if update then history remote none (updateCursor msgs ch)
  else history remote (backfillCursor msgs ch) none

/-! ## Ingestion (`on_ready`, dscrape.py lines 165-213) -/

/-- Mutable state of the ingestion loop: the database plus the in-memory
`users` set of known user ids. -/
structure IngestState where
  db : DB
  known : List Nat
  deriving Repr, DecidableEq

/-- The author-backfill step guarding each message insert
(dscrape.py lines 191-195). -/
def insertUserStep (s : IngestState) (m : RMessage) : IngestState :=
  if s.known.contains m.author.id then s
  else
    { db := { s.db with users := insertOrIgnoreUser s.db.users (userTuple m) }
      known := m.author.id :: s.known }

/-- Processing of one yielded tuple (dscrape.py lines 186-205): author
backfill, message insert-or-ignore, then one plain `INSERT` per mention. -/
def processMessage (s : IngestState) (m : RMessage) : IngestState :=
  let s1 := insertUserStep s m
  { s1 with db :=
      { s1.db with
        messages := insertOrIgnoreMessage s1.db.messages (messageTuple m)
        mentions := s1.db.mentions ++ mentionTuples m } }

/-- The message-ingestion loop. -/
def processMessages : IngestState → List RMessage → IngestState
  | s, [] => s
  | s, m :: ms => processMessages (processMessage s m) ms

/-- The channel-enumeration pass (dscrape.py lines 172-174). -/
def insertChannelsPass : DB → List ChannelRow → DB
  | db, [] => db
  | db, c :: cs =>
      insertChannelsPass { db with channels := insertOrIgnoreChannel db.channels c } cs

/-- The member-enumeration pass (dscrape.py lines 176-180): each enumerated
member id is added to the in-memory set and upsert-ignored into `users`. -/
def seedUsersPass : IngestState → List RUser → IngestState
  | s, [] => s
  | s, u :: us =>
      seedUsersPass
        { db := { s.db with users := insertOrIgnoreUser s.db.users (memberTuple u) }
          known := u.id :: s.known } us

/-- A whole ingestion run over a fixed list of yielded messages: channels pass,
member pass, then the message loop. -/
def runIngestion (db : DB) (chans : List ChannelRow) (members : List RUser)
    (ms : List RMessage) : DB :=
  let db1 := insertChannelsPass db chans
  let s0 := seedUsersPass { db := db1, known := [] } members
  (processMessages s0 ms).db

/-- Checks, step by step, that at the moment each message row's insert is
issued the author's id is already present in the `users` table. -/
def ingestOk : IngestState → List RMessage → Bool
  | _, [] => true
  | s, m :: ms =>
      hasUserId (insertUserStep s m).db.users m.author.id &&
      ingestOk (processMessage s m) ms

/-! ## Connection, commits, and the shutdown sequence (dscrape.py lines 165-213) -/

/-- A statement issued on the archiver's SQLite connection: either a write
(abstracted to a numeric payload) or an explicit `commit`. -/
inductive ConnOp where
  | write (payload : Nat)
  | commit
  deriving Repr, DecidableEq

/-- The connection state: statements made durable by a commit, and statements
still pending in the open transaction. -/
structure Conn where
  committed : List Nat
  pending : List Nat
  deriving Repr, DecidableEq

/-- Executing one statement on the connection. -/
def execConnOp (c : Conn) : ConnOp → Conn
  | .write p => { c with pending := c.pending ++ [p] }
  | .commit => { committed := c.committed ++ c.pending, pending := [] }

/-- Running a sequence of statements. -/
def runConnOps : Conn → List ConnOp → Conn
  | c, [] => c
  | c, op :: ops => runConnOps (execConnOp c op) ops

/-- Observable events of `on_ready` outside the connection. -/
inductive ReadyEv where
  | printExc
  | cancelTask
  | logout
  deriving Repr, DecidableEq

/-- The statement sequence of the `try` block of `on_ready`: channel and user
inserts, a commit (line 182), message-loop writes, and the final commit
(line 206). -/
def tryBodyOps (seedWrites msgWrites : List Nat) : List ConnOp :=
  seedWrites.map ConnOp.write ++ [ConnOp.commit] ++
  msgWrites.map ConnOp.write ++ [ConnOp.commit]

/-- The `try`/`except`/`finally` structure of `on_ready`: when an unhandled
exception is raised after `k` statements, the remaining statements are skipped,
the exception is printed, and the `finally` block cancels the background commit
task and logs the client out — without issuing any further commit. -/
def onReady (c : Conn) (ops : List ConnOp) (exnAt : Option Nat) : Conn × List ReadyEv :=
  match exnAt with
  | none => (runConnOps c ops, [ReadyEv.cancelTask, ReadyEv.logout])
  | some k => (runConnOps c (ops.take k), [ReadyEv.printExc, ReadyEv.cancelTask, ReadyEv.logout])

/-! ## Model cache (lolmarkov.py lines 148-194) -/

/-- The model bot's logical view of a `messages` row: the columns its queries
reference (`author_id`, `timestamp`, `clean_content`). -/
structure StoredMessage where
  author_id : Nat
  timestamp : Int
  clean_content : String
  deriving Repr, DecidableEq

/-- A trained `SentenceText` model, abstracted by the corpus it was built from. -/
structure MarkovModel where
  corpus : List String
  deriving Repr, DecidableEq

/-- The on-disk model artifact `models/<author_id>.json`: a modification time
and either a valid serialized model or malformed JSON (`valid = none`). -/
structure Artifact where
  mtime : Int
  valid : Option MarkovModel
  deriving Repr, DecidableEq

/-- Effect trace of one `create_model` call: how many `max(timestamp)`
freshness queries and corpus `SELECT` queries hit the message table, and
whether the artifact file was removed or (re)written. -/
structure Effects where
  freshnessQueries : Nat
  corpusQueries : Nat
  removedFile : Bool
  wroteFile : Bool
  deriving Repr, DecidableEq

/-- Result of `create_model`: a normal return (possibly `None`), or an
uncaught `TypeError` (comparing `None > mtime` when the author has no rows). -/
inductive CMResult where
  | ok : Option MarkovModel → CMResult
  | typeError : CMResult
  deriving Repr, DecidableEq

/-- Full outcome of one `create_model` call: the returned value, the artifact
file state afterwards, and the effect trace. -/
structure CMOut where
  result : CMResult
  fsAfter : Option Artifact
  effects : Effects
  deriving Repr, DecidableEq

/-- SQLite `SELECT max(timestamp) FROM messages WHERE author_id is ?`
(lolmarkov.py lines 151-157): `none` models the NULL of an empty aggregate. -/
def maxTimestamp (rows : List StoredMessage) (author : Nat) : Option Int :=
  (rows.filter (fun r => r.author_id == author)).foldl
    (fun acc r =>
      match acc with
      | none => some r.timestamp
      | some t => some (max t r.timestamp))
    none

/-- Ordering used by `ORDER BY timestamp DESC`. -/
def tsGe (a b : StoredMessage) : Prop := b.timestamp ≤ a.timestamp

instance : DecidableRel tsGe := fun a b => Int.decLe b.timestamp a.timestamp

instance : IsTotal StoredMessage tsGe :=
  ⟨fun a b => Int.le_total b.timestamp a.timestamp⟩

instance : IsTrans StoredMessage tsGe :=
  ⟨fun _ _ _ hab hbc => le_trans hbc hab⟩

/-- Rows sorted by `timestamp DESC` (newest first). -/
def sortByTsDesc (rows : List StoredMessage) : List StoredMessage :=
  rows.insertionSort tsGe

/-- The author's rows in the message table. -/
def authorRows (rows : List StoredMessage) (author : Nat) : List StoredMessage :=
  rows.filter (fun r => r.author_id == author)

/-- The rows fetched by the corpus query of `create_model` (lolmarkov.py lines
174-183): `SELECT clean_content FROM messages WHERE author_id is ? ORDER BY
timestamp DESC LIMIT 100000`. -/
def corpusQueryRows (rows : List StoredMessage) (author : Nat) : List StoredMessage :=
  (sortByTsDesc (authorRows rows author)).take 100000

/-- Outcome of `cache_update` (lolmarkov.py lines 148-164). -/
inductive CacheUpdateResult where
  | fileNotFound
  | typeErr (fs : Option Artifact)
  | done (fs : Option Artifact) (removed : Bool)
  deriving Repr, DecidableEq

/-- `cache_update` (lolmarkov.py lines 148-164): `os.path.getmtime` raises
`FileNotFoundError` when the artifact is absent; otherwise the freshness query
runs and, when the author has no rows at all, `None > mtime` raises
`TypeError`; otherwise the artifact is removed exactly when the latest stored
timestamp exceeds the file's modification time. -/
def cache_update (fs : Option Artifact) (rows : List StoredMessage)
    (author : Nat) : CacheUpdateResult :=
  match fs with
  | none => CacheUpdateResult.fileNotFound
  | some a =>
    match maxTimestamp rows author with
    | none => CacheUpdateResult.typeErr (some a)
    | some t =>
        if t > a.mtime then CacheUpdateResult.done none true
        else CacheUpdateResult.done (some a) false

/-- The `except (FileNotFoundError, JSONDecodeError)` branch of `create_model`
(lolmarkov.py lines 173-192): fetch the corpus, return `None` below 25 rows,
otherwise train and persist.  `fs` is the artifact state at the time of the
branch, `fresh`/`removed` record the effects already performed. -/
def rebuildModel (fs : Option Artifact) (rows : List StoredMessage) (author : Nat)
    (now : Int) (fresh : Nat) (removed : Bool) : CMOut :=
  let fetched := corpusQueryRows rows author
  if fetched.length < 25 then
    { result := CMResult.ok none
      fsAfter := fs
      effects := { freshnessQueries := fresh, corpusQueries := 1,
                   removedFile := removed, wroteFile := false } }
  else
    let model : MarkovModel := { corpus := fetched.map (fun r => r.clean_content) }
    { result := CMResult.ok (some model)
      fsAfter := some { mtime := now, valid := some model }
      effects := { freshnessQueries := fresh, corpusQueries := 1,
                   removedFile := removed, wroteFile := true } }

/-- `create_model` (lolmarkov.py lines 166-194).  `fs` is the state of
`models/<author_id>.json`, `rows` the message table, `now` the clock value
stamped as modification time of any file written. -/
def create_model (fs : Option Artifact) (rows : List StoredMessage) (author : Nat)
    (now : Int) : CMOut :=
  match cache_update fs rows author with
  | CacheUpdateResult.fileNotFound =>
      rebuildModel fs rows author now 0 false
  | CacheUpdateResult.typeErr fs' =>
      { result := CMResult.typeError
        fsAfter := fs'
        effects := { freshnessQueries := 1, corpusQueries := 0,
                     removedFile := false, wroteFile := false } }
  | CacheUpdateResult.done fs' removed =>
    match fs' with
    | none =>
        rebuildModel none rows author now 1 removed
    | some a =>
      match a.valid with
      | some m =>
          { result := CMResult.ok (some m)
            fsAfter := some a
            effects := { freshnessQueries := 1, corpusQueries := 0,
                         removedFile := false, wroteFile := false } }
      | none =>
          rebuildModel (some a) rows author now 1 removed

/-- The rebuilt-or-kept artifact passes the freshness check: running
`cache_update` on it removes nothing and raises nothing. -/
def freshCheckPasses (fs : Option Artifact) (rows : List StoredMessage)
    (author : Nat) : Prop :=
  cache_update fs rows author = CacheUpdateResult.done fs false

/-! ## The bot cog and the `switch` command (lolmarkov.py lines 110-233) -/

/-- A resolved user as consumed by `switch` and `set_name`. -/
structure Member where
  id : Nat
  name : String
  discriminator : String
  deriving Repr, DecidableEq

/-- State of `MarkovCog` relevant to model switching, plus the bot nickname. -/
structure CogState where
  model : Option MarkovModel
  modelAttrib : Option String
  nick : Option String
  deriving Repr, DecidableEq

/-- Python slicing `s[:n]` for a possibly negative bound. -/
def pySliceTo (s : String) (n : Int) : String :=
  if n < 0 then s.take (s.length - (-n).toNat) else s.take n.toNat

/-- `set_name` (lolmarkov.py lines 131-146): records the attribution string
and changes the nickname to `basename (name#discriminator)`, trimming the
member name to the available length. -/
def set_name (s : CogState) (basename : String) (member : Member) : CogState :=
  let availableLength : Int := 32 - (basename.length : Int) - 8
  let memberName :=
    if (member.name.length : Int) > availableLength then
      pySliceTo member.name (availableLength - 3) ++ "..."
    else member.name
  let trimmedMember := memberName ++ "#" ++ member.discriminator
  { s with
    modelAttrib := some (member.name ++ "#" ++ member.discriminator)
    nick := some (basename ++ " (" ++ trimmedMember ++ ")") }

/-- `switch` (lolmarkov.py lines 208-223), with the `switch_error` handler for
the uncaught-exception path: returns the new cog state and the messages sent
to the channel. -/
def switch (s : CogState) (basename : String) (member : Member)
    (fs : Option Artifact) (rows : List StoredMessage) (now : Int) :
    CogState × List String :=
  match (create_model fs rows member.id now).result with
  | CMResult.ok none =>
      (s, ["Not enough data for user " ++ member.name])
  | CMResult.ok (some m) =>
      let s' := set_name { s with model := some m } basename member
      (s', ["Switched model to " ++ member.name ++ "#" ++ member.discriminator])
  | CMResult.typeError =>
      (s, ["Unable to switch data set."])

/-! ## Concrete inputs used by witnesses and counterexamples -/

/-- The empty store, as created by a fresh schema application. -/
def emptyDB : DB := { users := [], channels := [], messages := [], mentions := [] }

/-- A remote message with id 77 by author 5 mentioning user 9. -/
def demoC8msg : RMessage :=
  { id := 77
    createdAt := 1000
    author := { id := 5, name := "alice", display_name := "Alice", discriminator := "0001" }
    channel_id := 3
    content := "hi bob"
    clean_content := "hi bob"
    mentions := [{ id := 9, name := "bob", display_name := "Bob", discriminator := "0002" }] }

/-! ## Claim theorems -/

/-- C2: the claim states that every table and column name the Model Cache
reads (`users.id`, `users.username`, `users.discriminator`,
`messages.author_id`, `messages.timestamp`, `messages.clean_content`) exists
in the store schema the Archiver creates.  This is false of the code: the
archiver's DDL names the user key `users.user_id` and the message author
column `messages.user_id`, while the bot queries `users.id` and
`messages.author_id`, so the user-lookup, freshness, corpus and quote queries
all fail to resolve against a store created by `dscrape.py`. -/
theorem C2_schema_mismatch :
    usersColumns.contains "id" = false
    ∧ messagesColumns.contains "author_id" = false
    ∧ modelCacheSchemaResolves = false
    ∧ modelCacheUserColumns.contains "id" = true
    ∧ modelCacheMessageColumns.contains "author_id" = true := by
  decide

/-- C8: the claim states each emitted mentions row stores the author id in
`from_user_id`, the mentioned user's id in `to_user_id`, and the message id in
`message_id`.  The code instead builds the tuple
`(message.id, message.author.id, user.id)` and inserts it positionally, so the
message id lands in `from_user_id`, the author id in `to_user_id`, and the
mentioned user's id in `message_id`: for the concrete message with id 77,
author 5 and one mentioned user 9, the stored row is `(77, 5, 9)`, not the
claimed `(5, 9, 77)`. -/
theorem C8_mention_columns :
    mentionTuples demoC8msg =
      [{ from_user_id := 77, to_user_id := 5, message_id := 9 }]
    ∧ (runIngestion emptyDB [] [] [demoC8msg]).mentions =
      [{ from_user_id := 77, to_user_id := 5, message_id := 9 }] := by
  decide

/-! ## Model-cache lemmas and claims -/

/-- Length of the corpus query result. -/
theorem length_corpusQueryRows (rows : List StoredMessage) (author : Nat) :
    (corpusQueryRows rows author).length = min 100000 (authorRows rows author).length := by
  simp [corpusQueryRows, sortByTsDesc, List.length_take]

/-- A store with `n` messages by author 7, timestamps `0, 1, …, n-1`. -/
def boundaryRows (n : Nat) : List StoredMessage :=
  (List.range n).map (fun i => { author_id := 7, timestamp := (i : Int), clean_content := "w" })

/-- C6: on a cache miss (no artifact file), `create_model` fetches at most
100000 of the author's most recent rows (every fetched row is at least as
recent as every row left behind by the LIMIT), returns `None` — not an
exception — exactly when fewer than 25 rows were read, and otherwise builds
the model from exactly the fetched corpus; with exactly 24 archived messages
the result is `None` and with exactly 25 a model is built. -/
theorem C6_corpus_bound_and_minimum (rows : List StoredMessage) (author : Nat) (now : Int) :
    (corpusQueryRows rows author).length ≤ 100000
    ∧ ((create_model none rows author now).result = CMResult.ok none ↔
        (corpusQueryRows rows author).length < 25)
    ∧ ((corpusQueryRows rows author).length < 25 ∨
        (create_model none rows author now).result =
          CMResult.ok (some { corpus := (corpusQueryRows rows author).map (fun r => r.clean_content) }))
    ∧ (∀ x ∈ corpusQueryRows rows author,
        ∀ y ∈ (sortByTsDesc (authorRows rows author)).drop 100000,
          y.timestamp ≤ x.timestamp)
    ∧ (create_model none (boundaryRows 24) 7 now).result = CMResult.ok none
    ∧ (∃ mdl, (create_model none (boundaryRows 25) 7 now).result = CMResult.ok (some mdl)) := by
  refine ⟨List.length_take_le _ _, ?_, ?_, ?_, ?_, ?_⟩
  · by_cases h : (corpusQueryRows rows author).length < 25 <;>
      simp [create_model, cache_update, rebuildModel, h]
  · by_cases h : (corpusQueryRows rows author).length < 25
    · exact Or.inl h
    · exact Or.inr (by simp [create_model, cache_update, rebuildModel, h])
  · intro x hx y hy
    exact (List.sorted_insertionSort tsGe (authorRows rows author)).rel_of_mem_take_of_mem_drop hx hy
  · have h : (corpusQueryRows (boundaryRows 24) 7).length < 25 := by decide
    simp [create_model, cache_update, rebuildModel, h]
  · have h : ¬ (corpusQueryRows (boundaryRows 25) 7).length < 25 := by decide
    refine ⟨{ corpus := (corpusQueryRows (boundaryRows 25) 7).map (fun r => r.clean_content) }, ?_⟩
    simp [create_model, cache_update, rebuildModel, h]

/-- C5: `create_model` returns the deserialized artifact unchanged whenever
the file exists, parses, and its modification time is not older than the
author's latest stored timestamp; whenever the modification time is older, the
artifact is removed and — given the author has at least the 25 rows needed to
train and the clock is not behind the stored timestamps — a new model is
trained from the store, persisted with the current time as modification time,
and the rebuilt artifact passes the freshness check. -/
theorem C5_cache_hit_and_invalidation (rows : List StoredMessage) (author : Nat)
    (now : Int) (a : Artifact) (m : MarkovModel) (L : Int)
    (hval : a.valid = some m)
    (hmax : maxTimestamp rows author = some L) :
    (L ≤ a.mtime →
      create_model (some a) rows author now =
        { result := CMResult.ok (some m)
          fsAfter := some a
          effects := { freshnessQueries := 1, corpusQueries := 0,
                       removedFile := false, wroteFile := false } })
    ∧ (a.mtime < L → 25 ≤ (authorRows rows author).length → L ≤ now →
        (create_model (some a) rows author now).result =
          CMResult.ok (some { corpus := (corpusQueryRows rows author).map (fun r => r.clean_content) })
        ∧ (create_model (some a) rows author now).fsAfter =
          some { mtime := now,
                 valid := some { corpus := (corpusQueryRows rows author).map (fun r => r.clean_content) } }
        ∧ (create_model (some a) rows author now).effects.removedFile = true
        ∧ (create_model (some a) rows author now).effects.wroteFile = true
        ∧ freshCheckPasses (create_model (some a) rows author now).fsAfter rows author) := by
  constructor
  · intro h
    have hng : ¬ (L > a.mtime) := not_lt.mpr h
    simp [create_model, cache_update, hmax, hng, hval]
  · intro hst h25 hnow
    have hlen : ¬ ((corpusQueryRows rows author).length < 25) := by
      have hh := length_corpusQueryRows rows author
      have h2 : 25 ≤ min 100000 (authorRows rows author).length :=
        le_min (by norm_num) h25
      omega
    have hred : create_model (some a) rows author now =
        rebuildModel none rows author now 1 true := by
      simp [create_model, cache_update, hmax, hst]
    rw [hred]
    refine ⟨by simp [rebuildModel, hlen], by simp [rebuildModel, hlen],
      by simp [rebuildModel, hlen], by simp [rebuildModel, hlen], ?_⟩
    simp [rebuildModel, hlen, freshCheckPasses, cache_update, hmax, not_lt.mpr hnow]

/-- Witness for C5: with 25 stored messages (timestamps 0–24) a fresh artifact
(mtime 100) is returned as-is, and a stale artifact (mtime -5) is removed,
rebuilt at time 200, and the rebuilt artifact passes the freshness check. -/
theorem C5_witness :
    create_model (some { mtime := 100, valid := some { corpus := ["w"] } })
        (boundaryRows 25) 7 200 =
      { result := CMResult.ok (some { corpus := ["w"] })
        fsAfter := some { mtime := 100, valid := some { corpus := ["w"] } }
        effects := { freshnessQueries := 1, corpusQueries := 0,
                     removedFile := false, wroteFile := false } }
    ∧ (create_model (some { mtime := -5, valid := some { corpus := ["w"] } })
        (boundaryRows 25) 7 200).effects.removedFile = true
    ∧ freshCheckPasses
        (create_model (some { mtime := -5, valid := some { corpus := ["w"] } })
          (boundaryRows 25) 7 200).fsAfter (boundaryRows 25) 7 := by
  refine ⟨?_, ?_, ?_⟩
  · exact (C5_cache_hit_and_invalidation (boundaryRows 25) 7 200 _ _ 24 rfl
      (by decide)).1 (by decide)
  · exact ((C5_cache_hit_and_invalidation (boundaryRows 25) 7 200 _ _ 24 rfl
      (by decide)).2 (by decide) (by decide) (by decide)).2.2.1
  · exact ((C5_cache_hit_and_invalidation (boundaryRows 25) 7 200 _ _ 24 rfl
      (by decide)).2 (by decide) (by decide) (by decide)).2.2.2.2

/-- C7: on a cache hit (artifact present, parseable, and not older than the
author's latest stored message), `create_model` issues no corpus read of the
message table and neither removes nor rewrites the artifact file: the only
effects are the single freshness aggregate query and deserializing the
existing file, whose model is returned as-is. -/
theorem C7_cache_hit_frame (rows : List StoredMessage) (author : Nat) (now : Int)
    (a : Artifact) (m : MarkovModel) (L : Int)
    (hval : a.valid = some m)
    (hmax : maxTimestamp rows author = some L)
    (hfresh : L ≤ a.mtime) :
    (create_model (some a) rows author now).effects.corpusQueries = 0
    ∧ (create_model (some a) rows author now).effects.wroteFile = false
    ∧ (create_model (some a) rows author now).effects.removedFile = false
    ∧ (create_model (some a) rows author now).effects.freshnessQueries = 1
    ∧ (create_model (some a) rows author now).result = CMResult.ok (some m)
    ∧ (create_model (some a) rows author now).fsAfter = some a := by
  have hng : ¬ (L > a.mtime) := not_lt.mpr hfresh
  simp [create_model, cache_update, hmax, hng, hval]

/-- Witness for C7 at a concrete fresh artifact over 25 stored messages. -/
theorem C7_witness :
    (create_model (some { mtime := 50, valid := some { corpus := ["x"] } })
        (boundaryRows 25) 7 0).effects.corpusQueries = 0
    ∧ (create_model (some { mtime := 50, valid := some { corpus := ["x"] } })
        (boundaryRows 25) 7 0).effects.wroteFile = false
    ∧ (create_model (some { mtime := 50, valid := some { corpus := ["x"] } })
        (boundaryRows 25) 7 0).effects.removedFile = false
    ∧ (create_model (some { mtime := 50, valid := some { corpus := ["x"] } })
        (boundaryRows 25) 7 0).effects.freshnessQueries = 1
    ∧ (create_model (some { mtime := 50, valid := some { corpus := ["x"] } })
        (boundaryRows 25) 7 0).result = CMResult.ok (some { corpus := ["x"] })
    ∧ (create_model (some { mtime := 50, valid := some { corpus := ["x"] } })
        (boundaryRows 25) 7 0).fsAfter =
      some { mtime := 50, valid := some { corpus := ["x"] } } :=
  C7_cache_hit_frame (boundaryRows 25) 7 0 _ _ 24 rfl (by decide) (by decide)

/-- A cog state with an active model, used by the C10 witness. -/
def demoC10state : CogState :=
  { model := some { corpus := ["old sentence"] }
    modelAttrib := some "carol#0003"
    nick := some "base (carol#0003)" }

/-- C10: when `create_model` returns no model (insufficient data), `switch`
sends the not-enough-data message and leaves the active model, the attribution
string and the nickname unchanged, so subsequent talk commands keep using the
prior model. -/
theorem C10_switch_insufficient (s : CogState) (basename : String) (member : Member)
    (fs : Option Artifact) (rows : List StoredMessage) (now : Int)
    (h : (create_model fs rows member.id now).result = CMResult.ok none) :
    switch s basename member fs rows now =
      (s, ["Not enough data for user " ++ member.name])
    ∧ (switch s basename member fs rows now).1.model = s.model
    ∧ (switch s basename member fs rows now).1.modelAttrib = s.modelAttrib
    ∧ (switch s basename member fs rows now).1.nick = s.nick := by
  have h1 : switch s basename member fs rows now =
      (s, ["Not enough data for user " ++ member.name]) := by
    simp [switch, h]
  exact ⟨h1, by rw [h1], by rw [h1], by rw [h1]⟩

/-- Witness for C10: a user with an empty corpus leaves the demo cog state
untouched. -/
theorem C10_witness :
    switch demoC10state "base" { id := 1, name := "bob", discriminator := "0001" }
        none [] 0 =
      (demoC10state, ["Not enough data for user " ++ "bob"]) :=
  (C10_switch_insufficient demoC10state "base"
    { id := 1, name := "bob", discriminator := "0001" } none [] 0 (by decide)).1

/-! ## Watermark lemmas and claim C1 -/

/-- Characterization of the max-picking fold: a `some` result is a row of the
list (or the initial accumulator) whose timestamp dominates the list and the
accumulator. -/
theorem maxFold_spec :
    ∀ (l : List MessageRow) (acc : Option MessageRow) (m : MessageRow),
      l.foldl maxStep acc = some m →
      (m ∈ l ∨ acc = some m)
      ∧ (∀ r ∈ l, r.timestamp ≤ m.timestamp)
      ∧ (∀ a, acc = some a → a.timestamp ≤ m.timestamp)
  | [], acc, m => by
      intro h
      simp only [List.foldl_nil] at h
      refine ⟨Or.inr h, by simp, ?_⟩
      intro a ha
      rw [h] at ha
      cases ha
      exact le_refl _
  | r :: l, acc, m => by
      intro h
      rw [List.foldl_cons] at h
      obtain ⟨hmem, hall, hacc⟩ := maxFold_spec l (maxStep acc r) m h
      have hr : r.timestamp ≤ m.timestamp := by
        cases acc with
        | none => exact hacc r rfl
        | some b =>
            by_cases hb : r.timestamp > b.timestamp
            · exact hacc r (by simp [maxStep, hb])
            · exact le_trans (not_lt.mp hb) (hacc b (by simp [maxStep, hb]))
      refine ⟨?_, ?_, ?_⟩
      · rcases hmem with h1 | h2
        · exact Or.inl (List.mem_cons_of_mem _ h1)
        · cases acc with
          | none =>
              simp only [maxStep, Option.some.injEq] at h2
              exact Or.inl (h2 ▸ List.mem_cons_self _ _)
          | some b =>
              by_cases hb : r.timestamp > b.timestamp
              · simp only [maxStep, if_pos hb, Option.some.injEq] at h2
                exact Or.inl (h2 ▸ List.mem_cons_self _ _)
              · simp only [maxStep, if_neg hb] at h2
                exact Or.inr h2
      · intro x hx
        rcases List.mem_cons.mp hx with h1 | h2
        · exact h1 ▸ hr
        · exact hall x h2
      · intro a ha
        cases acc with
        | none => cases ha
        | some b =>
            cases ha
            by_cases hb : r.timestamp > a.timestamp
            · exact le_trans (le_of_lt hb) (hacc r (by simp [maxStep, hb]))
            · exact hacc a (by simp [maxStep, hb])

/-- Dual characterization for the min-picking fold. -/
theorem minFold_spec :
    ∀ (l : List MessageRow) (acc : Option MessageRow) (m : MessageRow),
      l.foldl minStep acc = some m →
      (m ∈ l ∨ acc = some m)
      ∧ (∀ r ∈ l, m.timestamp ≤ r.timestamp)
      ∧ (∀ a, acc = some a → m.timestamp ≤ a.timestamp)
  | [], acc, m => by
      intro h
      simp only [List.foldl_nil] at h
      refine ⟨Or.inr h, by simp, ?_⟩
      intro a ha
      rw [h] at ha
      cases ha
      exact le_refl _
  | r :: l, acc, m => by
      intro h
      rw [List.foldl_cons] at h
      obtain ⟨hmem, hall, hacc⟩ := minFold_spec l (minStep acc r) m h
      have hr : m.timestamp ≤ r.timestamp := by
        cases acc with
        | none => exact hacc r rfl
        | some b =>
            by_cases hb : r.timestamp < b.timestamp
            · exact hacc r (by simp [minStep, hb])
            · exact le_trans (hacc b (by simp [minStep, hb])) (not_lt.mp hb)
      refine ⟨?_, ?_, ?_⟩
      · rcases hmem with h1 | h2
        · exact Or.inl (List.mem_cons_of_mem _ h1)
        · cases acc with
          | none =>
              simp only [minStep, Option.some.injEq] at h2
              exact Or.inl (h2 ▸ List.mem_cons_self _ _)
          | some b =>
              by_cases hb : r.timestamp < b.timestamp
              · simp only [minStep, if_pos hb, Option.some.injEq] at h2
                exact Or.inl (h2 ▸ List.mem_cons_self _ _)
              · simp only [minStep, if_neg hb] at h2
                exact Or.inr h2
      · intro x hx
        rcases List.mem_cons.mp hx with h1 | h2
        · exact h1 ▸ hr
        · exact hall x h2
      · intro a ha
        cases acc with
        | none => cases ha
        | some b =>
            cases ha
            by_cases hb : r.timestamp < a.timestamp
            · exact le_trans (hacc r (by simp [minStep, hb])) (le_of_lt hb)
            · exact hacc a (by simp [minStep, hb])

/-- A `some` result of `maxTsRow` is a stored row of the channel achieving the
maximal timestamp among the channel's rows. -/
theorem maxTsRow_spec (msgs : List MessageRow) (ch : Nat) (m : MessageRow)
    (h : maxTsRow msgs ch = some m) :
    m ∈ msgs ∧ m.channel_id = ch
    ∧ ∀ r ∈ msgs, r.channel_id = ch → r.timestamp ≤ m.timestamp := by
  obtain ⟨hmem, hall, _⟩ := maxFold_spec _ none m h
  have hmem' : m ∈ msgs.filter (fun r => r.channel_id == ch) := by
    rcases hmem with h1 | h2
    · exact h1
    · cases h2
  have hf := List.mem_filter.mp hmem'
  refine ⟨hf.1, by simpa using hf.2, ?_⟩
  intro r hr hch
  exact hall r (List.mem_filter.mpr ⟨hr, by simp [hch]⟩)

/-- A `some` result of `minTsRow` is a stored row of the channel achieving the
minimal timestamp among the channel's rows. -/
theorem minTsRow_spec (msgs : List MessageRow) (ch : Nat) (m : MessageRow)
    (h : minTsRow msgs ch = some m) :
    m ∈ msgs ∧ m.channel_id = ch
    ∧ ∀ r ∈ msgs, r.channel_id = ch → m.timestamp ≤ r.timestamp := by
  obtain ⟨hmem, hall, _⟩ := minFold_spec _ none m h
  have hmem' : m ∈ msgs.filter (fun r => r.channel_id == ch) := by
    rcases hmem with h1 | h2
    · exact h1
    · cases h2
  have hf := List.mem_filter.mp hmem'
  refine ⟨hf.1, by simpa using hf.2, ?_⟩
  intro r hr hch
  exact hall r (List.mem_filter.mpr ⟨hr, by simp [hch]⟩)

/-- C1: per channel, the cursor is computed from the stored rows before the
single history request.  In update mode it is the message id of the stored
max-timestamp row and history is exactly the remote messages with id strictly
greater (full history when nothing is stored); in backfill mode (the default)
it is the message id of the stored min-timestamp row and history is exactly
the remote messages with id strictly smaller, newest first (the full history,
newest first, when nothing is stored).  The last two conjuncts state that the
row backing the cursor is a stored row of the channel achieving the extreme
timestamp. -/
theorem C1_watermark_protocol (msgs : List MessageRow) (remote : List RMessage) (ch : Nat) :
    ((∀ m, maxTsRow msgs ch = some m → m.message_id ≠ 0 →
        channelScan true msgs remote ch =
          (remote.filter (fun x => decide (m.message_id < x.id))).reverse)
      ∧ (maxTsRow msgs ch = none → channelScan true msgs remote ch = remote))
    ∧ ((∀ m, minTsRow msgs ch = some m → m.message_id ≠ 0 →
        channelScan false msgs remote ch =
          remote.filter (fun x => decide (x.id < m.message_id)))
      ∧ (minTsRow msgs ch = none → channelScan false msgs remote ch = remote))
    ∧ (∀ m, maxTsRow msgs ch = some m →
        m ∈ msgs ∧ m.channel_id = ch
        ∧ ∀ r ∈ msgs, r.channel_id = ch → r.timestamp ≤ m.timestamp)
    ∧ (∀ m, minTsRow msgs ch = some m →
        m ∈ msgs ∧ m.channel_id = ch
        ∧ ∀ r ∈ msgs, r.channel_id = ch → m.timestamp ≤ r.timestamp) := by
  refine ⟨⟨?_, ?_⟩, ⟨?_, ?_⟩, maxTsRow_spec msgs ch, minTsRow_spec msgs ch⟩
  · intro m hm hid
    simp [channelScan, history, updateCursor, hm, hid]
  · intro h
    simp [channelScan, history, updateCursor, h]
  · intro m hm hid
    simp [channelScan, history, backfillCursor, hm, hid]
  · intro h
    simp [channelScan, history, backfillCursor, h]

/-- Stored rows for the C1 witness: channel 1 holds ids 10 and 20. -/
def demoC1row10 : MessageRow := ⟨10, 100, 1, "a", 1, "x", "x"⟩

/-- The stored max-timestamp row of channel 1 in the C1 witness store. -/
def demoC1row20 : MessageRow := ⟨20, 200, 1, "a", 1, "y", "y"⟩

/-- The C1 witness store. -/
def demoC1db : List MessageRow := [demoC1row10, demoC1row20, ⟨30, 50, 2, "b", 2, "z", "z"⟩]

/-- Remote history of channel 1 for the C1 witness, newest first. -/
def demoC1remote : List RMessage :=
  [⟨25, 250, ⟨1, "a", "A", "0001"⟩, 1, "", "", []⟩,
   ⟨15, 150, ⟨1, "a", "A", "0001"⟩, 1, "", "", []⟩,
   ⟨5, 50, ⟨1, "a", "A", "0001"⟩, 1, "", "", []⟩]

/-- Witness for C1: on the concrete store, update mode fetches strictly after
id 20 and backfill mode strictly before id 10. -/
theorem C1_witness :
    channelScan true demoC1db demoC1remote 1 =
      (demoC1remote.filter (fun x => decide (demoC1row20.message_id < x.id))).reverse
    ∧ channelScan false demoC1db demoC1remote 1 =
      demoC1remote.filter (fun x => decide (x.id < demoC1row10.message_id)) :=
  ⟨(C1_watermark_protocol demoC1db demoC1remote 1).1.1 demoC1row20 (by decide) (by decide),
   (C1_watermark_protocol demoC1db demoC1remote 1).2.1.1 demoC1row10 (by decide) (by decide)⟩

/-! ## Ingestion lemmas -/

/-- Inserting a user whose key is present is a no-op. -/
theorem insertOrIgnoreUser_of_present (t : List UserRow) (u : UserRow)
    (h : hasUserId t u.user_id = true) : insertOrIgnoreUser t u = t := by
  unfold insertOrIgnoreUser
  rw [if_pos h]

/-- Inserting a user whose key is absent appends the row. -/
theorem insertOrIgnoreUser_of_absent (t : List UserRow) (u : UserRow)
    (h : ¬ hasUserId t u.user_id = true) : insertOrIgnoreUser t u = t ++ [u] := by
  unfold insertOrIgnoreUser
  rw [if_neg h]

/-- The inserted user's key is present afterwards. -/
theorem hasUserId_insertOrIgnoreUser_self (t : List UserRow) (u : UserRow) :
    hasUserId (insertOrIgnoreUser t u) u.user_id = true := by
  by_cases h : hasUserId t u.user_id = true
  · rw [insertOrIgnoreUser_of_present t u h]; exact h
  · rw [insertOrIgnoreUser_of_absent t u h]
    simp [hasUserId, List.any_append]

/-- Presence of user keys is monotone under insert-or-ignore. -/
theorem hasUserId_insertOrIgnoreUser_mono (t : List UserRow) (u : UserRow) (i : Nat)
    (h : hasUserId t i = true) : hasUserId (insertOrIgnoreUser t u) i = true := by
  by_cases hc : hasUserId t u.user_id = true
  · rw [insertOrIgnoreUser_of_present t u hc]; exact h
  · rw [insertOrIgnoreUser_of_absent t u hc]
    simp only [hasUserId, List.any_append] at *
    simp [h]

/-- Inserting a message whose key is present is a no-op. -/
theorem insertOrIgnoreMessage_of_present (t : List MessageRow) (x : MessageRow)
    (h : hasMessageId t x.message_id = true) : insertOrIgnoreMessage t x = t := by
  unfold insertOrIgnoreMessage
  rw [if_pos h]

/-- Inserting a message whose key is absent appends the row. -/
theorem insertOrIgnoreMessage_of_absent (t : List MessageRow) (x : MessageRow)
    (h : ¬ hasMessageId t x.message_id = true) : insertOrIgnoreMessage t x = t ++ [x] := by
  unfold insertOrIgnoreMessage
  rw [if_neg h]

/-- The inserted message's key is present afterwards. -/
theorem hasMessageId_insertOrIgnoreMessage_self (t : List MessageRow) (x : MessageRow) :
    hasMessageId (insertOrIgnoreMessage t x) x.message_id = true := by
  by_cases h : hasMessageId t x.message_id = true
  · rw [insertOrIgnoreMessage_of_present t x h]; exact h
  · rw [insertOrIgnoreMessage_of_absent t x h]
    simp [hasMessageId, List.any_append]

/-- Presence of message keys is monotone under insert-or-ignore. -/
theorem hasMessageId_insertOrIgnoreMessage_mono (t : List MessageRow) (x : MessageRow)
    (i : Nat) (h : hasMessageId t i = true) :
    hasMessageId (insertOrIgnoreMessage t x) i = true := by
  by_cases hc : hasMessageId t x.message_id = true
  · rw [insertOrIgnoreMessage_of_present t x hc]; exact h
  · rw [insertOrIgnoreMessage_of_absent t x hc]
    simp only [hasMessageId, List.any_append] at *
    simp [h]

/-- A member of the inserted-or-ignored table is an old row or the new row. -/
theorem mem_insertOrIgnoreMessage (t : List MessageRow) (x r : MessageRow)
    (h : r ∈ insertOrIgnoreMessage t x) : r ∈ t ∨ r = x := by
  by_cases hc : hasMessageId t x.message_id = true
  · rw [insertOrIgnoreMessage_of_present t x hc] at h
    exact Or.inl h
  · rw [insertOrIgnoreMessage_of_absent t x hc] at h
    rcases List.mem_append.mp h with h1 | h2
    · exact Or.inl h1
    · exact Or.inr (by simpa using h2)

/-- Inserting a channel whose key is present is a no-op. -/
theorem insertOrIgnoreChannel_of_present (t : List ChannelRow) (c : ChannelRow)
    (h : hasChannelId t c.channel_id = true) : insertOrIgnoreChannel t c = t := by
  unfold insertOrIgnoreChannel
  rw [if_pos h]

/-- Inserting a channel whose key is absent appends the row. -/
theorem insertOrIgnoreChannel_of_absent (t : List ChannelRow) (c : ChannelRow)
    (h : ¬ hasChannelId t c.channel_id = true) : insertOrIgnoreChannel t c = t ++ [c] := by
  unfold insertOrIgnoreChannel
  rw [if_neg h]

/-- The inserted channel's key is present afterwards. -/
theorem hasChannelId_insertOrIgnoreChannel_self (t : List ChannelRow) (c : ChannelRow) :
    hasChannelId (insertOrIgnoreChannel t c) c.channel_id = true := by
  by_cases h : hasChannelId t c.channel_id = true
  · rw [insertOrIgnoreChannel_of_present t c h]; exact h
  · rw [insertOrIgnoreChannel_of_absent t c h]
    simp [hasChannelId, List.any_append]

/-- Presence of channel keys is monotone under insert-or-ignore. -/
theorem hasChannelId_insertOrIgnoreChannel_mono (t : List ChannelRow) (c : ChannelRow)
    (i : Nat) (h : hasChannelId t i = true) :
    hasChannelId (insertOrIgnoreChannel t c) i = true := by
  by_cases hc : hasChannelId t c.channel_id = true
  · rw [insertOrIgnoreChannel_of_present t c hc]; exact h
  · rw [insertOrIgnoreChannel_of_absent t c hc]
    simp only [hasChannelId, List.any_append] at *
    simp [h]

/-- The author-backfill invariant: every id in the in-memory set has a row in
the `users` table. -/
def knownOk (s : IngestState) : Prop :=
  ∀ i ∈ s.known, hasUserId s.db.users i = true

/-- The backfill step is a no-op when the author is already known. -/
theorem insertUserStep_of_mem (s : IngestState) (m : RMessage)
    (h : m.author.id ∈ s.known) : insertUserStep s m = s := by
  unfold insertUserStep
  rw [if_pos (by simpa using h)]

/-- The backfill step inserts the author's row when the author is unknown. -/
theorem insertUserStep_of_not_mem (s : IngestState) (m : RMessage)
    (h : m.author.id ∉ s.known) :
    insertUserStep s m =
      { db := { s.db with users := insertOrIgnoreUser s.db.users (userTuple m) }
        known := m.author.id :: s.known } := by
  unfold insertUserStep
  rw [if_neg (by simpa using h)]

/-- The message loop never touches the `channels` table. -/
theorem processMessage_channels (s : IngestState) (m : RMessage) :
    (processMessage s m).db.channels = s.db.channels := by
  show (insertUserStep s m).db.channels = s.db.channels
  by_cases h : m.author.id ∈ s.known
  · rw [insertUserStep_of_mem s m h]
  · rw [insertUserStep_of_not_mem s m h]

/-- The message loop step leaves `users` as the backfill step left it. -/
theorem processMessage_users (s : IngestState) (m : RMessage) :
    (processMessage s m).db.users = (insertUserStep s m).db.users := rfl

/-- The backfill step leaves the `messages` table alone. -/
theorem insertUserStep_messages (s : IngestState) (m : RMessage) :
    (insertUserStep s m).db.messages = s.db.messages := by
  by_cases h : m.author.id ∈ s.known
  · rw [insertUserStep_of_mem s m h]
  · rw [insertUserStep_of_not_mem s m h]

/-- The backfill step leaves the `channels` table alone. -/
theorem insertUserStep_channels (s : IngestState) (m : RMessage) :
    (insertUserStep s m).db.channels = s.db.channels := by
  by_cases h : m.author.id ∈ s.known
  · rw [insertUserStep_of_mem s m h]
  · rw [insertUserStep_of_not_mem s m h]

/-- Presence of user keys is monotone across the backfill step. -/
theorem hasUserId_insertUserStep_mono (s : IngestState) (m : RMessage) (i : Nat)
    (h : hasUserId s.db.users i = true) :
    hasUserId (insertUserStep s m).db.users i = true := by
  by_cases hc : m.author.id ∈ s.known
  · rw [insertUserStep_of_mem s m hc]; exact h
  · rw [insertUserStep_of_not_mem s m hc]
    exact hasUserId_insertOrIgnoreUser_mono _ _ _ h

/-- Presence of user keys is monotone across one loop step. -/
theorem hasUserId_processMessage_mono (s : IngestState) (m : RMessage) (i : Nat)
    (h : hasUserId s.db.users i = true) :
    hasUserId (processMessage s m).db.users i = true := by
  rw [processMessage_users]
  exact hasUserId_insertUserStep_mono s m i h

/-- Presence of user keys is monotone across the whole loop. -/
theorem hasUserId_processMessages_mono :
    ∀ (ms : List RMessage) (s : IngestState) (i : Nat),
      hasUserId s.db.users i = true →
      hasUserId (processMessages s ms).db.users i = true
  | [], _, _, h => h
  | m :: ms, s, i, h =>
      hasUserId_processMessages_mono ms (processMessage s m) i
        (hasUserId_processMessage_mono s m i h)

/-- Presence of message keys is monotone across one loop step. -/
theorem hasMessageId_processMessage_mono (s : IngestState) (m : RMessage) (i : Nat)
    (h : hasMessageId s.db.messages i = true) :
    hasMessageId (processMessage s m).db.messages i = true := by
  show hasMessageId (insertOrIgnoreMessage (insertUserStep s m).db.messages
    (messageTuple m)) i = true
  rw [insertUserStep_messages]
  exact hasMessageId_insertOrIgnoreMessage_mono _ _ _ h

/-- Presence of message keys is monotone across the whole loop. -/
theorem hasMessageId_processMessages_mono :
    ∀ (ms : List RMessage) (s : IngestState) (i : Nat),
      hasMessageId s.db.messages i = true →
      hasMessageId (processMessages s ms).db.messages i = true
  | [], _, _, h => h
  | m :: ms, s, i, h =>
      hasMessageId_processMessages_mono ms (processMessage s m) i
        (hasMessageId_processMessage_mono s m i h)

/-- After the backfill step, the author's id is present in `users`, provided
the in-memory set is truthful. -/
theorem insertUserStep_author_present (s : IngestState) (m : RMessage)
    (hk : knownOk s) :
    hasUserId (insertUserStep s m).db.users m.author.id = true := by
  by_cases hc : m.author.id ∈ s.known
  · rw [insertUserStep_of_mem s m hc]
    exact hk m.author.id hc
  · rw [insertUserStep_of_not_mem s m hc]
    exact hasUserId_insertOrIgnoreUser_self s.db.users (userTuple m)

/-- The backfill step preserves the truthfulness of the in-memory set. -/
theorem knownOk_insertUserStep (s : IngestState) (m : RMessage) (hk : knownOk s) :
    knownOk (insertUserStep s m) := by
  by_cases hc : m.author.id ∈ s.known
  · rw [insertUserStep_of_mem s m hc]
    exact hk
  · rw [insertUserStep_of_not_mem s m hc]
    intro i hi
    rcases List.mem_cons.mp hi with h1 | h2
    · subst h1
      exact hasUserId_insertOrIgnoreUser_self s.db.users (userTuple m)
    · exact hasUserId_insertOrIgnoreUser_mono _ _ _ (hk i h2)

/-- One loop step preserves the truthfulness of the in-memory set. -/
theorem knownOk_processMessage (s : IngestState) (m : RMessage) (hk : knownOk s) :
    knownOk (processMessage s m) :=
  knownOk_insertUserStep s m hk

/-- C3 core: at each message insert of the loop the author id is already in
the `users` table. -/
theorem ingestOk_of_knownOk :
    ∀ (ms : List RMessage) (s : IngestState), knownOk s → ingestOk s ms = true
  | [], _, _ => rfl
  | m :: ms, s, hk => by
      simp only [ingestOk, Bool.and_eq_true]
      exact ⟨insertUserStep_author_present s m hk,
        ingestOk_of_knownOk ms (processMessage s m) (knownOk_processMessage s m hk)⟩

/-- Every processed message's author resolves in the final `users` table. -/
theorem processMessages_author_present :
    ∀ (ms : List RMessage) (s : IngestState), knownOk s →
      ∀ m ∈ ms, hasUserId (processMessages s ms).db.users m.author.id = true
  | [], _, _ => by intro m hm; cases hm
  | m :: ms, s, hk => by
      intro x hx
      rcases List.mem_cons.mp hx with h1 | h2
      · subst h1
        exact hasUserId_processMessages_mono ms (processMessage s x) x.author.id
          (by rw [processMessage_users]; exact insertUserStep_author_present s x hk)
      · exact processMessages_author_present ms (processMessage s m)
          (knownOk_processMessage s m hk) x h2

/-- Every processed message's id is present in the final `messages` table. -/
theorem processMessages_msgid_present :
    ∀ (ms : List RMessage) (s : IngestState),
      ∀ m ∈ ms, hasMessageId (processMessages s ms).db.messages m.id = true
  | [], _ => by intro m hm; cases hm
  | m :: ms, s => by
      intro x hx
      rcases List.mem_cons.mp hx with h1 | h2
      · subst h1
        refine hasMessageId_processMessages_mono ms (processMessage s x) x.id ?_
        show hasMessageId (insertOrIgnoreMessage (insertUserStep s x).db.messages
          (messageTuple x)) x.id = true
        exact hasMessageId_insertOrIgnoreMessage_self _ (messageTuple x)
      · exact processMessages_msgid_present ms (processMessage s m) x h2

/-- The whole message loop never touches the `channels` table. -/
theorem processMessages_channels :
    ∀ (ms : List RMessage) (s : IngestState),
      (processMessages s ms).db.channels = s.db.channels
  | [], _ => rfl
  | m :: ms, s => (processMessages_channels ms _).trans (processMessage_channels s m)

/-- The member pass never touches the `channels` table. -/
theorem seedUsersPass_channels :
    ∀ (us : List RUser) (s : IngestState),
      (seedUsersPass s us).db.channels = s.db.channels
  | [], _ => rfl
  | _ :: us, _ => (seedUsersPass_channels us _).trans rfl

/-- The member pass never touches the `messages` table. -/
theorem seedUsersPass_messages :
    ∀ (us : List RUser) (s : IngestState),
      (seedUsersPass s us).db.messages = s.db.messages
  | [], _ => rfl
  | _ :: us, _ => (seedUsersPass_messages us _).trans rfl

/-- Presence of user keys is monotone across the member pass. -/
theorem seedUsersPass_users_mono :
    ∀ (us : List RUser) (s : IngestState) (i : Nat),
      hasUserId s.db.users i = true →
      hasUserId (seedUsersPass s us).db.users i = true
  | [], _, _, h => h
  | _ :: us, _, i, h =>
      seedUsersPass_users_mono us _ i (hasUserId_insertOrIgnoreUser_mono _ _ _ h)

/-- Every enumerated member's id is present after the member pass. -/
theorem seedUsersPass_member_present :
    ∀ (us : List RUser) (s : IngestState),
      ∀ u ∈ us, hasUserId (seedUsersPass s us).db.users u.id = true
  | [], _ => by intro u hu; cases hu
  | v :: us, s => by
      intro u hu
      rcases List.mem_cons.mp hu with h1 | h2
      · subst h1
        exact seedUsersPass_users_mono us _ u.id
          (hasUserId_insertOrIgnoreUser_self s.db.users (memberTuple u))
      · exact seedUsersPass_member_present us _ u h2

/-- The member pass preserves truthfulness of the in-memory set. -/
theorem knownOk_seedUsersPass :
    ∀ (us : List RUser) (s : IngestState), knownOk s → knownOk (seedUsersPass s us)
  | [], _, hk => hk
  | u :: us, s, hk =>
      knownOk_seedUsersPass us _ (by
        intro i hi
        rcases List.mem_cons.mp hi with h1 | h2
        · subst h1
          exact hasUserId_insertOrIgnoreUser_self s.db.users (memberTuple u)
        · exact hasUserId_insertOrIgnoreUser_mono _ _ _ (hk i h2))

/-- If every member's row is already present, the member pass leaves `users`
unchanged. -/
theorem seedUsersPass_users_noop :
    ∀ (us : List RUser) (s : IngestState),
      (∀ u ∈ us, hasUserId s.db.users u.id = true) →
      (seedUsersPass s us).db.users = s.db.users
  | [], _, _ => rfl
  | u :: us, s, h => by
      have hu := h u (List.mem_cons_self u us)
      have e : insertOrIgnoreUser s.db.users (memberTuple u) = s.db.users :=
        insertOrIgnoreUser_of_present _ _ hu
      have ih := seedUsersPass_users_noop us
        { db := { s.db with users := insertOrIgnoreUser s.db.users (memberTuple u) }
          known := u.id :: s.known }
        (fun x hx => hasUserId_insertOrIgnoreUser_mono _ _ _ (h x (List.mem_cons_of_mem _ hx)))
      exact ih.trans e

/-- The channel pass leaves `users` unchanged. -/
theorem insertChannelsPass_users :
    ∀ (cs : List ChannelRow) (db : DB), (insertChannelsPass db cs).users = db.users
  | [], _ => rfl
  | _ :: cs, _ => (insertChannelsPass_users cs _).trans rfl

/-- The channel pass leaves `messages` unchanged. -/
theorem insertChannelsPass_messages :
    ∀ (cs : List ChannelRow) (db : DB), (insertChannelsPass db cs).messages = db.messages
  | [], _ => rfl
  | _ :: cs, _ => (insertChannelsPass_messages cs _).trans rfl

/-- Presence of channel keys is monotone across the channel pass. -/
theorem insertChannelsPass_channels_mono :
    ∀ (cs : List ChannelRow) (db : DB) (i : Nat),
      hasChannelId db.channels i = true →
      hasChannelId (insertChannelsPass db cs).channels i = true
  | [], _, _, h => h
  | _ :: cs, _, i, h =>
      insertChannelsPass_channels_mono cs _ i
        (hasChannelId_insertOrIgnoreChannel_mono _ _ _ h)

/-- Every listed channel's id is present after the channel pass. -/
theorem insertChannelsPass_present :
    ∀ (cs : List ChannelRow) (db : DB),
      ∀ c ∈ cs, hasChannelId (insertChannelsPass db cs).channels c.channel_id = true
  | [], _ => by intro c hc; cases hc
  | d :: cs, db => by
      intro c hc
      rcases List.mem_cons.mp hc with h1 | h2
      · subst h1
        exact insertChannelsPass_channels_mono cs _ c.channel_id
          (hasChannelId_insertOrIgnoreChannel_self db.channels c)
      · exact insertChannelsPass_present cs _ c h2

/-- If every listed channel is already present, the channel pass is the
identity on the database. -/
theorem insertChannelsPass_noop :
    ∀ (cs : List ChannelRow) (db : DB),
      (∀ c ∈ cs, hasChannelId db.channels c.channel_id = true) →
      insertChannelsPass db cs = db
  | [], _, _ => rfl
  | c :: cs, db, h => by
      have hc := h c (List.mem_cons_self c cs)
      have e : ({ db with channels := insertOrIgnoreChannel db.channels c } : DB) = db := by
        rw [insertOrIgnoreChannel_of_present db.channels c hc]
      have step : insertChannelsPass db (c :: cs) =
          insertChannelsPass { db with channels := insertOrIgnoreChannel db.channels c } cs := rfl
      rw [step, e]
      exact insertChannelsPass_noop cs db (fun x hx => h x (List.mem_cons_of_mem _ hx))

/-- When the author's row is already present, a loop step leaves `users`
unchanged. -/
theorem processMessage_users_of_present (s : IngestState) (m : RMessage)
    (h : hasUserId s.db.users m.author.id = true) :
    (processMessage s m).db.users = s.db.users := by
  rw [processMessage_users]
  by_cases hc : m.author.id ∈ s.known
  · rw [insertUserStep_of_mem s m hc]
  · rw [insertUserStep_of_not_mem s m hc]
    exact insertOrIgnoreUser_of_present _ _ h

/-- When the message's row is already present, a loop step leaves `messages`
unchanged. -/
theorem processMessage_messages_of_present (s : IngestState) (m : RMessage)
    (h : hasMessageId s.db.messages m.id = true) :
    (processMessage s m).db.messages = s.db.messages := by
  show insertOrIgnoreMessage (insertUserStep s m).db.messages (messageTuple m) = s.db.messages
  rw [insertUserStep_messages]
  exact insertOrIgnoreMessage_of_present _ _ h

/-- Re-running the loop over messages whose user and message rows are all
present leaves the `users` and `messages` tables unchanged. -/
theorem processMessages_noop :
    ∀ (ms : List RMessage) (s : IngestState),
      (∀ m ∈ ms, hasUserId s.db.users m.author.id = true) →
      (∀ m ∈ ms, hasMessageId s.db.messages m.id = true) →
      (processMessages s ms).db.users = s.db.users ∧
      (processMessages s ms).db.messages = s.db.messages
  | [], _, _, _ => ⟨rfl, rfl⟩
  | m :: ms, s, hu, hmsg => by
      have eu : (processMessage s m).db.users = s.db.users :=
        processMessage_users_of_present s m (hu m (List.mem_cons_self m ms))
      have em : (processMessage s m).db.messages = s.db.messages :=
        processMessage_messages_of_present s m (hmsg m (List.mem_cons_self m ms))
      have ih := processMessages_noop ms (processMessage s m)
        (fun x hx => by rw [eu]; exact hu x (List.mem_cons_of_mem _ hx))
        (fun x hx => by rw [em]; exact hmsg x (List.mem_cons_of_mem _ hx))
      exact ⟨ih.1.trans eu, ih.2.trans em⟩

/-- One loop step preserves the author-resolution invariant of `messages`. -/
theorem processMessage_resolve (s : IngestState) (m : RMessage) (hk : knownOk s)
    (hres : ∀ r ∈ s.db.messages, hasUserId s.db.users r.user_id = true) :
    ∀ r ∈ (processMessage s m).db.messages,
      hasUserId (processMessage s m).db.users r.user_id = true := by
  intro r hr
  have hr' : r ∈ insertOrIgnoreMessage (insertUserStep s m).db.messages (messageTuple m) := hr
  rw [insertUserStep_messages] at hr'
  rcases mem_insertOrIgnoreMessage _ _ _ hr' with h1 | h2
  · rw [processMessage_users]
    exact hasUserId_insertUserStep_mono s m _ (hres r h1)
  · subst h2
    rw [processMessage_users]
    exact insertUserStep_author_present s m hk

/-- The whole loop preserves the author-resolution invariant of `messages`. -/
theorem processMessages_resolve :
    ∀ (ms : List RMessage) (s : IngestState), knownOk s →
      (∀ r ∈ s.db.messages, hasUserId s.db.users r.user_id = true) →
      ∀ r ∈ (processMessages s ms).db.messages,
        hasUserId (processMessages s ms).db.users r.user_id = true
  | [], _, _, hres => hres
  | m :: ms, s, hk, hres =>
      processMessages_resolve ms (processMessage s m) (knownOk_processMessage s m hk)
        (processMessage_resolve s m hk hres)

/-- Unfolding equation for `runIngestion`. -/
theorem runIngestion_eq (db : DB) (chans : List ChannelRow) (members : List RUser)
    (ms : List RMessage) :
    runIngestion db chans members ms =
      (processMessages
        (seedUsersPass { db := insertChannelsPass db chans, known := [] } members)
        ms).db := rfl

/-- C3: in every ingestion run, at the moment each message row's insert is
issued the author's id is already present in the `users` table (synthesized
from the message's denormalized author fields when the author was not in the
in-memory set seeded by the member pass); consequently every ingested
message's author resolves to a `users` row after the run, and the resolution
invariant of pre-existing rows is preserved. -/
theorem C3_author_backfill (db : DB) (chans : List ChannelRow) (members : List RUser)
    (ms : List RMessage) :
    ingestOk (seedUsersPass { db := insertChannelsPass db chans, known := [] } members)
      ms = true
    ∧ (∀ m ∈ ms, hasUserId (runIngestion db chans members ms).users m.author.id = true)
    ∧ ((∀ r ∈ db.messages, hasUserId db.users r.user_id = true) →
        ∀ r ∈ (runIngestion db chans members ms).messages,
          hasUserId (runIngestion db chans members ms).users r.user_id = true) := by
  have hk0 : knownOk ({ db := insertChannelsPass db chans, known := [] } : IngestState) := by
    intro i hi
    cases hi
  have hk : knownOk (seedUsersPass
      { db := insertChannelsPass db chans, known := [] } members) :=
    knownOk_seedUsersPass members _ hk0
  refine ⟨ingestOk_of_knownOk ms _ hk, ?_, ?_⟩
  · intro m hm
    rw [runIngestion_eq]
    exact processMessages_author_present ms _ hk m hm
  · intro hres
    rw [runIngestion_eq]
    refine processMessages_resolve ms _ hk ?_
    intro x hx
    rw [seedUsersPass_messages members _, insertChannelsPass_messages chans db] at hx
    refine seedUsersPass_users_mono members _ x.user_id ?_
    show hasUserId (insertChannelsPass db chans).users x.user_id = true
    rw [insertChannelsPass_users chans db]
    exact hres x hx

/-- A remote message with a mention, for the C3 witness. -/
def demoC3msg : RMessage :=
  { id := 42
    createdAt := 500
    author := { id := 5, name := "alice", display_name := "Alice", discriminator := "0001" }
    channel_id := 3
    content := "hello"
    clean_content := "hello"
    mentions := [] }

/-- Witness for C3: ingesting a message from a never-enumerated author makes
its author id resolve in `users`. -/
theorem C3_witness :
    hasUserId (runIngestion emptyDB [] [] [demoC3msg]).users 5 = true :=
  (C3_author_backfill emptyDB [] [] [demoC3msg]).2.1 demoC3msg (List.mem_singleton.mpr rfl)

/-- Re-running ingestion over content whose rows are all present leaves the
three primary-keyed tables unchanged. -/
theorem runIngestion_second_run (d1 : DB) (chans : List ChannelRow)
    (members : List RUser) (ms : List RMessage)
    (hchan : ∀ c ∈ chans, hasChannelId d1.channels c.channel_id = true)
    (hmem : ∀ u ∈ members, hasUserId d1.users u.id = true)
    (hauth : ∀ m ∈ ms, hasUserId d1.users m.author.id = true)
    (hmsg : ∀ m ∈ ms, hasMessageId d1.messages m.id = true) :
    (runIngestion d1 chans members ms).users = d1.users
    ∧ (runIngestion d1 chans members ms).channels = d1.channels
    ∧ (runIngestion d1 chans members ms).messages = d1.messages := by
  have e3 : insertChannelsPass d1 chans = d1 := insertChannelsPass_noop chans d1 hchan
  have eu : (seedUsersPass { db := d1, known := [] } members).db.users = d1.users :=
    seedUsersPass_users_noop members _ (fun u hu => hmem u hu)
  have ec : (seedUsersPass { db := d1, known := [] } members).db.channels = d1.channels :=
    seedUsersPass_channels members _
  have em : (seedUsersPass { db := d1, known := [] } members).db.messages = d1.messages :=
    seedUsersPass_messages members _
  have hnoop := processMessages_noop ms (seedUsersPass { db := d1, known := [] } members)
    (fun m hm => by rw [eu]; exact hauth m hm)
    (fun m hm => by rw [em]; exact hmsg m hm)
  rw [runIngestion_eq, e3]
  exact ⟨hnoop.1.trans eu, (processMessages_channels ms _).trans ec, hnoop.2.trans em⟩

/-- C4 (amended): the channels, users and messages inserts all use
`INSERT OR IGNORE` keyed on the primary key, so re-presenting the same remote
content a second time leaves those three tables identical; the claim's
inclusion of mentions is refuted separately, since mentions rows are inserted
with a plain `INSERT` into a table without a primary key. -/
theorem C4_pk_tables_idempotent (db : DB) (chans : List ChannelRow)
    (members : List RUser) (ms : List RMessage) :
    (runIngestion (runIngestion db chans members ms) chans members ms).users =
      (runIngestion db chans members ms).users
    ∧ (runIngestion (runIngestion db chans members ms) chans members ms).channels =
      (runIngestion db chans members ms).channels
    ∧ (runIngestion (runIngestion db chans members ms) chans members ms).messages =
      (runIngestion db chans members ms).messages := by
  have hk0 : knownOk ({ db := insertChannelsPass db chans, known := [] } : IngestState) := by
    intro i hi
    cases hi
  have hk : knownOk (seedUsersPass
      { db := insertChannelsPass db chans, known := [] } members) :=
    knownOk_seedUsersPass members _ hk0
  refine runIngestion_second_run _ chans members ms ?_ ?_ ?_ ?_
  · intro c hc
    rw [runIngestion_eq, processMessages_channels ms _, seedUsersPass_channels members _]
    exact insertChannelsPass_present chans db c hc
  · intro u hu
    rw [runIngestion_eq]
    exact hasUserId_processMessages_mono ms _ u.id
      (seedUsersPass_member_present members _ u hu)
  · intro m hm
    rw [runIngestion_eq]
    exact processMessages_author_present ms _ hk m hm
  · intro m hm
    rw [runIngestion_eq]
    exact processMessages_msgid_present ms _ m hm

/-- A remote message with one mention, for the C4 counterexample. -/
def demoC4msg : RMessage :=
  { id := 90
    createdAt := 900
    author := { id := 6, name := "dora", display_name := "Dora", discriminator := "0004" }
    channel_id := 2
    content := "hey eve"
    clean_content := "hey eve"
    mentions := [{ id := 8, name := "eve", display_name := "Eve", discriminator := "0005" }] }

/-- Counterexample to C4 as stated: mentions inserts do not use
ignore-on-conflict (the table has no primary key), so re-presenting the same
message duplicates its mentions row and the store content differs from a
single ingestion. -/
theorem C4_counterexample :
    ¬ ((runIngestion (runIngestion emptyDB [] [] [demoC4msg]) [] [] [demoC4msg]).mentions =
       (runIngestion emptyDB [] [] [demoC4msg]).mentions) := by
  decide

/-! ## Shutdown-sequence lemmas and claim C9 -/

/-- Running statements never removes committed rows: the committed list is
only extended. -/
theorem runConnOps_committed_extends :
    ∀ (ops : List ConnOp) (c : Conn),
      ∃ t, (runConnOps c ops).committed = c.committed ++ t
  | [], c => ⟨[], (List.append_nil c.committed).symm⟩
  | op :: ops, c => by
      obtain ⟨t, ht⟩ := runConnOps_committed_extends ops (execConnOp c op)
      cases op with
      | write p => exact ⟨t, ht⟩
      | commit =>
          refine ⟨c.pending ++ t, ?_⟩
          have step : runConnOps c (ConnOp.commit :: ops) =
              runConnOps (execConnOp c ConnOp.commit) ops := rfl
          rw [step, ht]
          simp [execConnOp, List.append_assoc]

/-- Statement sequences compose. -/
theorem runConnOps_append :
    ∀ (l1 l2 : List ConnOp) (c : Conn),
      runConnOps c (l1 ++ l2) = runConnOps (runConnOps c l1) l2
  | [], _, _ => rfl
  | op :: l1, l2, c => runConnOps_append l1 l2 (execConnOp c op)

/-- C9 (amended): whether ingestion completes or an unhandled exception is
raised after any number of statements, the shutdown events run (the
background commit task is cancelled, then the client disconnects), and
progress already committed is retained — nothing is rolled back.  On the
completion path the `try` block's final commit leaves nothing pending; on the
exception path no further flush is issued (refuted separately). -/
theorem C9_shutdown_always_runs (c : Conn) (ops : List ConnOp) (exnAt : Option Nat) :
    (∃ pre, (onReady c ops exnAt).2 = pre ++ [ReadyEv.cancelTask, ReadyEv.logout])
    ∧ (∃ t, (onReady c ops exnAt).1.committed = c.committed ++ t)
    ∧ (exnAt = none → ∀ sw mw, ops = tryBodyOps sw mw →
        (onReady c ops exnAt).1.pending = []) := by
  refine ⟨?_, ?_, ?_⟩
  · cases exnAt with
    | none => exact ⟨[], rfl⟩
    | some k => exact ⟨[ReadyEv.printExc], rfl⟩
  · cases exnAt with
    | none => exact runConnOps_committed_extends ops c
    | some k => exact runConnOps_committed_extends (ops.take k) c
  · rintro rfl sw mw rfl
    show (runConnOps c (tryBodyOps sw mw)).pending = []
    have e : tryBodyOps sw mw =
        (sw.map ConnOp.write ++ [ConnOp.commit] ++ mw.map ConnOp.write) ++ [ConnOp.commit] := by
      simp [tryBodyOps, List.append_assoc]
    rw [e, runConnOps_append]
    rfl

/-- Witness for C9: a completed run with one seed write and one message write
ends with an empty pending set. -/
theorem C9_witness :
    (onReady { committed := [], pending := [] } (tryBodyOps [1] [2]) none).1.pending = [] :=
  (C9_shutdown_always_runs { committed := [], pending := [] }
    (tryBodyOps [1] [2]) none).2.2 rfl [1] [2] rfl

/-- Counterexample to C9 as stated: when the exception strikes after the
message write but before the final commit, the `finally` block cancels the
task and logs out without flushing, so the pending write is lost — committed
progress is `[1]` while write `2` is still pending at shutdown. -/
theorem C9_counterexample :
    (onReady { committed := [], pending := [] } (tryBodyOps [1] [2]) (some 3)).1.pending ≠ []
    ∧ (onReady { committed := [], pending := [] } (tryBodyOps [1] [2]) (some 3)).1 =
      { committed := [1], pending := [2] }
    ∧ (onReady { committed := [], pending := [] } (tryBodyOps [1] [2]) (some 3)).2 =
      [ReadyEv.printExc, ReadyEv.cancelTask, ReadyEv.logout] := by
  decide

end Lolmarkov
